import Mathlib

/-!
Verification of the signal-processing pipeline of `Server.py`.

Samples and filter coefficients are IEEE float64 values in the source; they
are modelled here as exact rationals.  The float32 stages of the pipeline
(the wire samples, the re-referenced difference `s1[:n] - s2[:n]`, which numpy
computes on float32 arrays, and the final `astype(np.float32)` cast) are
modelled by the exact value together with the overflow predicate
`overflowsF32`: a float64 value of magnitude at least `2^128` converts to an
infinity when cast to float32.
-/

namespace Server

/-- Coefficient triple `(c0, c1, c2)`, as in the three-element numpy arrays
of `Server.py`. -/
abbrev Coeffs := ℚ × ℚ × ℚ

/-- High-pass 1 Hz numerator coefficients (`Server.py` line 61). -/
def B_HP : Coeffs := (0.98238544, -1.96477088, 0.98238544)

/-- High-pass 1 Hz denominator coefficients (`Server.py` line 62). -/
def A_HP : Coeffs := (1.0, -1.96446058, 0.96508117)

/-- Notch 50 Hz numerator coefficients (`Server.py` line 65). -/
def B_NOTCH : Coeffs := (0.97948276, -0.60535364, 0.97948276)

/-- Notch 50 Hz denominator coefficients (`Server.py` line 66). -/
def A_NOTCH : Coeffs := (1.0, -0.60535364, 0.95896552)

/-- Low-pass 70 Hz numerator coefficients (`Server.py` line 69). -/
def B_LP : Coeffs := (0.35034638, 0.70069276, 0.35034638)

/-- Low-pass 70 Hz denominator coefficients (`Server.py` line 70). -/
def A_LP : Coeffs := (1.0, 0.22115344, 0.18023207)

/-- Sampling frequency in Hz (`Server.py` line 51, `FS = 250`). -/
def FS : ℚ := 250

/-- Body of the loop of `iir_filter_2nd_order` (`Server.py` lines 87-94):
`y_n = b0*x[n]`, plus `b1*x[n-1] - a1*y[n-1]` when `n >= 1`, plus
`b2*x[n-2] - a2*y[n-2]` when `n >= 2`.  `ys` is the list of outputs
`y[0..n-1]` computed by the earlier iterations; `a.1` (the coefficient
`a0 = 1`) is ignored, exactly as the source unpacks `_, a1, a2 = a`. -/
def iirStep (b a : Coeffs) (x ys : List ℚ) (n : ℕ) : ℚ :=
  let t0 := b.1 * x.getD n 0
  let t1 := if 1 ≤ n then b.2.1 * x.getD (n - 1) 0 - a.2.1 * ys.getD (n - 1) 0 else 0
  let t2 := if 2 ≤ n then b.2.2 * x.getD (n - 2) 0 - a.2.2 * ys.getD (n - 2) 0 else 0
  t0 + t1 + t2

/-- Outputs `y[0..k-1]` of the loop of `iir_filter_2nd_order`: the loop
starts from `y = zeros` and assigns `y[n]` in order, each iteration reading
only `x` and the entries `y[n-1], y[n-2]` already assigned. -/
def iirAux (b a : Coeffs) (x : List ℚ) : ℕ → List ℚ
  | 0 => []
  | k + 1 => iirAux b a x k ++ [iirStep b a x (iirAux b a x k) k]

/-- Biquad filter applied per block (`Server.py` lines 75-96).  Every call
starts from an all-zero output buffer and uses only in-block history, so no
delay state survives from one call to the next. -/
def iir_filter_2nd_order (b a : Coeffs) (x : List ℚ) : List ℚ :=
  iirAux b a x x.length

/-- Filter cascade (`Server.py` lines 99-119): high-pass 1 Hz, then notch
50 Hz, then low-pass 70 Hz, each with the fixed module-level coefficients.
The final `astype(np.float32)` is modelled as the identity on the exact
value; its overflow is tracked by `overflowsF32`. -/
def apply_filters (signal_block : List ℚ) : List ℚ :=
  if signal_block = [] then signal_block
  else
    iir_filter_2nd_order B_LP A_LP
      (iir_filter_2nd_order B_NOTCH A_NOTCH
        (iir_filter_2nd_order B_HP A_HP signal_block))

/-- Size in bytes of the packet header `"<Bqhh"`:
`device_id: u8` (1) + `timestamp_start: i64` (8) + `sample_rate: i16` (2) +
`n_samples: i16` (2). -/
def header_size : ℕ := 13

/-- Little-endian signed 16-bit integer assembled from two bytes. -/
def toInt16 (lo hi : ℕ) : ℤ :=
  if lo + 256 * hi < 32768 then (lo + 256 * hi : ℤ)
  else (lo + 256 * hi : ℤ) - 65536

/-- Consecutive 4-byte groups of the payload assembled into little-endian
32-bit words, as `np.frombuffer(..., dtype=np.float32)` reads them; a
trailing group of fewer than 4 bytes is never present in a packet that
passes the length check. -/
def sampleWords : List ℕ → List ℕ
  | b0 :: b1 :: b2 :: b3 :: rest =>
      (b0 + 256 * b1 + 65536 * b2 + 16777216 * b3) :: sampleWords rest
  | _ => []

/-- Binary packet decoder (`Server.py` lines 125-151).  Returns the device
id byte and the raw 32-bit sample words; their float32 interpretation is
supplied separately where needed.  The decoded `timestamp_start` and
`sample_rate` fields are discarded, exactly as in the source.  Bytes are
modelled as naturals; a wire byte is below 256. -/
def parse_binary_packet (packet_bytes : List ℕ) : Option (ℕ × List ℕ) :=
  if packet_bytes.length < header_size then none
  else
    let device_id := packet_bytes.getD 0 0
    let n : ℤ := toInt16 (packet_bytes.getD 11 0) (packet_bytes.getD 12 0)
    if (packet_bytes.length : ℤ) = (header_size : ℤ) + 4 * n then
      some (device_id, sampleWords (packet_bytes.drop header_size))
    else none

/-- Mutable module state of `Server.py`: the two per-device block buffers
(`buffers = {1: None, 2: None}`, line 53) and the synthetic clock base
(`start_time`, line 54), in milliseconds. -/
structure ServerState where
  buf1 : Option (List ℚ)
  buf2 : Option (List ℚ)
  start_time : Option ℚ
deriving DecidableEq

/-- State at process startup: both buffers empty, no clock base yet. -/
def initialState : ServerState := ⟨none, none, none⟩

/-- Row handed to the persistence layer: `(timestamp in ms, value)`. -/
abbrev Row := ℚ × ℚ

/-- Sample period in milliseconds, `dt_ms = 1000.0 / FS` (line 186). -/
def dt_ms : ℚ := 1000 / FS

/-- Re-referencing step `reref = s1[:n] - s2[:n]` (`Server.py` line 177):
elementwise difference of the two blocks truncated to `n` entries. -/
def reref (n : ℕ) (s1 s2 : List ℚ) : List ℚ :=
  List.zipWith (fun a b => a - b) (s1.take n) (s2.take n)

/-- Index-based synchronizer and pipeline body (`Server.py` lines 157-197).
`now` is the value `datetime.utcnow()` would give, in milliseconds.
Returns the emitted rows (or `none` when a buffer is missing or the shorter
block is empty) together with the updated state: on success both buffers
are reset and `start_time` advances past the last emitted timestamp. -/
def process_by_sample_index (now : ℚ) (s : ServerState) :
    Option (List Row) × ServerState :=
  match s.buf1, s.buf2 with
  | some s1, some s2 =>
    let n := min s1.length s2.length
    if n = 0 then (none, s)
    else
      let filtered := apply_filters (reref n s1 s2)
      let t0 := s.start_time.getD now
      let timestamps := (List.range n).map (fun i : ℕ => t0 + (i : ℚ) * dt_ms)
      let newStart := timestamps.getLastD 0 + dt_ms
      (some (timestamps.zip filtered),
       { buf1 := none, buf2 := none, start_time := some newStart })
  | _, _ => (none, s)

/-- One iteration of the websocket receive loop (`Server.py` lines 240-261):
decode the packet, store the block under its device id, and when both
buffers hold a block run the pipeline, persist the rows and answer
`"OK:<n>"`.  The result is the new session state, the list of text messages
sent to the originating socket, and the rows handed to
`insert_processed_data`.  `F` interprets a 32-bit wire word as the rational
value of the float32 it encodes.  A decoded device id other than 1 or 2
stores its block under a dictionary key the pipeline never reads, so it is
dropped from the model. -/
def websocket_endpoint_step (F : ℕ → ℚ) (now : ℚ) (s : ServerState)
    (packet_bytes : List ℕ) : ServerState × List String × List Row :=
  if packet_bytes = [] then (s, [], [])
  else
    match parse_binary_packet packet_bytes with
    | none => (s, [], [])
    | some (device_id, words) =>
      let samples := words.map F
      let s1 : ServerState :=
        if device_id = 1 then { s with buf1 := some samples }
        else if device_id = 2 then { s with buf2 := some samples }
        else s
      if s1.buf1.isSome && s1.buf2.isSome then
        match process_by_sample_index now s1 with
        | (some results, s2) =>
          if results = [] then (s2, [], [])
          else (s2, ["OK:" ++ toString results.length], results)
        | (none, s2) => (s2, [], [])
      else (s1, [], [])

/-- Feeding one `(front, ref)` block pair into the session: both buffers are
stored (`Server.py` line 254 for each device) and the pipeline runs once,
as in the receive loop when the second block of a pair arrives. -/
def feedPair (now : ℚ) (s : ServerState) (p : List ℚ × List ℚ) :
    List Row × ServerState :=
  let s' : ServerState := { s with buf1 := some p.1, buf2 := some p.2 }
  match process_by_sample_index now s' with
  | (some rows, s2) => (rows, s2)
  | (none, s2) => ([], s2)

/-- Rows emitted by a session that processes a list of block pairs in
order. -/
def runPairs (now : ℚ) (s : ServerState) : List (List ℚ × List ℚ) → List Row
  | [] => []
  | p :: ps => (feedPair now s p).1 ++ runPairs now (feedPair now s p).2 ps

/-- Overflow of the float64-to-float32 cast: every float64 value of
magnitude at least `2^128` becomes an infinity when cast to float32 (the
largest finite float32 is `(2^24 - 1) * 2^104` and the round-to-nearest
overflow threshold is `(2^25 - 1) * 2^103`, both below `2^128`). -/
def overflowsF32 (v : ℚ) : Prop := 2 ^ 128 ≤ |v|

instance : DecidablePred overflowsF32 := fun v => by
  unfold overflowsF32; infer_instance

/-- Presence of a non-finite value in the emitted block: the source computes
`reref` on float32 arrays and casts the filter output back to float32, so
the block the session persists and reports carries an infinity (or a NaN
derived from it) as soon as either stage overflows float32. -/
def blockHasNonFinite (s1 s2 : List ℚ) (n : ℕ) : Prop :=
  (∃ v ∈ reref n s1 s2, overflowsF32 v) ∨
    (∃ v ∈ apply_filters (reref n s1 s2), overflowsF32 v)

/-- Outcome of the persistence writer, as observed by the pipeline. -/
structure InsertResult where
  reconnected : Bool
  writeAttempts : ℕ
  persisted : List Row
  continues : Bool
deriving DecidableEq

/-- Behaviour of the persistence sink during one writer call: whether the
`SELECT 1` ping on the current connection succeeds, whether an
`execute_batch` on the current connection succeeds, and whether an
`execute_batch` on a freshly reconnected connection would succeed. -/
structure SinkState where
  pingOk : Bool
  writeOk : Bool
  writeOkFresh : Bool
deriving DecidableEq

/-- Reconnect decision of `get_cursor` (`Server.py` lines 38-45): the cursor
is pinged with `SELECT 1` and the connection is re-established only when
the ping raises. -/
def get_cursor (st : SinkState) : Bool := !st.pingOk

/-- Persistence writer `insert_processed_data` (`Server.py` lines 203-220):
one `get_cursor` call (ping, reconnect on ping failure), then a single
`execute_batch` attempt inside `try/except`; an exception rolls back,
drops the batch and returns, so the stream continues either way. -/
def insert_processed_data (st : SinkState) (data : List Row) : InsertResult :=
  let recon := get_cursor st
  let ok := if st.pingOk then st.writeOk else st.writeOkFresh
  { reconnected := recon
    writeAttempts := 1
    persisted := if ok then data else []
    continues := true }

/-! Support lemmas about the filter loop. -/

theorem length_iirAux (b a : Coeffs) (x : List ℚ) (k : ℕ) :
    (iirAux b a x k).length = k := by
  induction k with
  | zero => rfl
  | succ k ih => simp [iirAux, ih]

theorem length_iir_filter_2nd_order (b a : Coeffs) (x : List ℚ) :
    (iir_filter_2nd_order b a x).length = x.length :=
  length_iirAux b a x x.length

/-- The value already assigned at index `i` is unchanged by the later
iterations of the loop. -/
theorem iirAux_getD_stable (b a : Coeffs) (x : List ℚ) {m k i : ℕ}
    (him : i < m) (hmk : m ≤ k) :
    (iirAux b a x k).getD i 0 = (iirAux b a x m).getD i 0 := by
  induction k, hmk using Nat.le_induction with
  | base => rfl
  | succ k hmk ih =>
    rw [iirAux, List.getD_eq_getElem?_getD, List.getElem?_append,
      if_pos (by rw [length_iirAux]; omega), ← List.getD_eq_getElem?_getD, ih]

theorem iir_getD_eq_step (b a : Coeffs) (x : List ℚ) {n : ℕ}
    (hn : n < x.length) :
    (iir_filter_2nd_order b a x).getD n 0
      = iirStep b a x (iirAux b a x n) n := by
  rw [iir_filter_2nd_order, iirAux_getD_stable b a x (Nat.lt_succ_self n) hn,
    iirAux, List.getD_eq_getElem?_getD, List.getElem?_append,
    if_neg (by rw [length_iirAux]; omega)]
  simp [length_iirAux]

/-- Recurrence satisfied by the filter output for every index with two
predecessors inside the block. -/
theorem iir_recurrence (b a : Coeffs) (x : List ℚ) {n : ℕ}
    (h2 : 2 ≤ n) (hn : n < x.length) :
    (iir_filter_2nd_order b a x).getD n 0
      = b.1 * x.getD n 0
        + b.2.1 * x.getD (n - 1) 0 + b.2.2 * x.getD (n - 2) 0
        - a.2.1 * (iir_filter_2nd_order b a x).getD (n - 1) 0
        - a.2.2 * (iir_filter_2nd_order b a x).getD (n - 2) 0 := by
  have e1 : (iirAux b a x n).getD (n - 1) 0
      = (iir_filter_2nd_order b a x).getD (n - 1) 0 := by
    rw [iir_filter_2nd_order, iirAux_getD_stable b a x (m := n) (by omega) hn.le]
  have e2 : (iirAux b a x n).getD (n - 2) 0
      = (iir_filter_2nd_order b a x).getD (n - 2) 0 := by
    rw [iir_filter_2nd_order, iirAux_getD_stable b a x (m := n) (by omega) hn.le]
  rw [iir_getD_eq_step b a x hn, iirStep, if_pos (by omega), if_pos h2, e1, e2]
  ring

theorem length_apply_filters (x : List ℚ) :
    (apply_filters x).length = x.length := by
  by_cases hx : x = []
  · simp [apply_filters, hx]
  · simp [apply_filters, hx, length_iir_filter_2nd_order]

/-! Support lemmas about re-referencing and the synchronizer. -/

theorem length_reref (n : ℕ) (s1 s2 : List ℚ) :
    (reref n s1 s2).length = min n (min s1.length s2.length) := by
  simp [reref, Nat.min_assoc, Nat.min_left_comm]

theorem length_reref_min (s1 s2 : List ℚ) :
    (reref (min s1.length s2.length) s1 s2).length
      = min s1.length s2.length := by
  rw [length_reref]; omega

theorem reref_getD (n : ℕ) (s1 s2 : List ℚ) {i : ℕ}
    (hin : i < n) (h1 : i < s1.length) (h2 : i < s2.length) :
    (reref n s1 s2).getD i 0 = s1.getD i 0 - s2.getD i 0 := by
  rw [reref, List.getD_eq_getElem?_getD, List.getElem?_zipWith,
    List.getElem?_take, if_pos hin, List.getElem?_take, if_pos hin,
    List.getElem?_eq_getElem h1, List.getElem?_eq_getElem h2,
    List.getD_eq_getElem?_getD, List.getD_eq_getElem?_getD,
    List.getElem?_eq_getElem h1, List.getElem?_eq_getElem h2]
  rfl

theorem getLastD_range_map (f : ℕ → ℚ) {n : ℕ} (hn : 0 < n) :
    ((List.range n).map f).getLastD 0 = f (n - 1) := by
  rw [List.getLastD_eq_getLast?, List.getLast?_eq_getElem?, List.length_map,
    List.length_range, List.getElem?_map, List.getElem?_range (by omega)]
  rfl

/-- Closed form of a successful pipeline run: with both buffers holding a
block and the shorter block nonempty, the synchronizer emits the pairs of
synthetic timestamps and filtered re-referenced samples, clears both
buffers, and advances the clock base by one sample period past the last
emitted timestamp. -/
theorem process_eq (now : ℚ) (s : ServerState) (s1 s2 : List ℚ)
    (h1 : s.buf1 = some s1) (h2 : s.buf2 = some s2)
    (hn : 0 < min s1.length s2.length) :
    process_by_sample_index now s =
      (some (((List.range (min s1.length s2.length)).map
          (fun i : ℕ => s.start_time.getD now + (i : ℚ) * dt_ms)).zip
          (apply_filters (reref (min s1.length s2.length) s1 s2))),
       { buf1 := none, buf2 := none,
         start_time := some (s.start_time.getD now
           + (min s1.length s2.length) * dt_ms) }) := by
  obtain ⟨b1, b2, t⟩ := s
  simp only at h1 h2
  subst h1 h2
  rw [process_by_sample_index]
  simp only [if_neg (Nat.pos_iff_ne_zero.mp hn)]
  rw [getLastD_range_map _ hn]
  have hcast := Nat.cast_sub (R := ℚ)
    (show 1 ≤ min s1.length s2.length by omega)
  simp only [Prod.mk.injEq, ServerState.mk.injEq, Option.some.injEq, true_and]
  rw [hcast]
  push_cast
  ring

theorem length_sampleWords : ∀ l : List ℕ, (sampleWords l).length = l.length / 4
  | [] => rfl
  | [_] => by simp [sampleWords]
  | [_, _] => by simp [sampleWords]
  | [_, _, _] => by simp [sampleWords]
  | _ :: _ :: _ :: _ :: rest => by
    rw [sampleWords, List.length_cons, length_sampleWords rest]
    simp only [List.length_cons]
    omega

/-- C2, corrected: the decoder accepts a packet exactly when its length is
`header_size + 4*n` for the decoded signed 16-bit sample count `n` (which
forces `n ≥ 0`); a 13-byte frame with `n = 0` is accepted, not rejected, and
no other maximum on `n` is enforced.  On success the device id is the first
byte and the samples are exactly the `(length - 13)/4` four-byte groups of
the payload, so the decoder never reads past the end of the input. -/
theorem claim_C2_amended (p : List ℕ) :
    ((parse_binary_packet p).isSome ↔
      ((p.length : ℤ) = (header_size : ℤ)
          + 4 * toInt16 (p.getD 11 0) (p.getD 12 0)
        ∧ header_size ≤ p.length))
    ∧ ∀ d ws, parse_binary_packet p = some (d, ws) →
        d = p.getD 0 0 ∧ 4 * ws.length + header_size = p.length := by
  by_cases hlen : p.length < header_size
  · constructor
    · rw [parse_binary_packet, if_pos hlen]
      simp only [Option.isSome_none, Bool.false_eq_true, false_iff, not_and]
      intro _
      omega
    · intro d ws h
      rw [parse_binary_packet, if_pos hlen] at h
      exact absurd h (by simp)
  · by_cases heq : (p.length : ℤ) = (header_size : ℤ)
        + 4 * toInt16 (p.getD 11 0) (p.getD 12 0)
    · have hp : parse_binary_packet p
          = some (p.getD 0 0, sampleWords (p.drop header_size)) := by
        rw [parse_binary_packet, if_neg hlen, if_pos heq]
      refine ⟨by simp [hp, heq, not_lt.mp hlen], fun d ws h => ?_⟩
      rw [hp] at h
      injection h with h
      injection h with hd hws
      subst hd hws
      rw [length_sampleWords, List.length_drop]
      omega
    · have hp : parse_binary_packet p = none := by
        rw [parse_binary_packet, if_neg hlen, if_neg heq]
      refine ⟨?_, fun d ws h => absurd h (by simp [hp])⟩
      rw [hp]
      simp only [Option.isSome_none, Bool.false_eq_true, false_iff, not_and]
      exact fun h => absurd h heq

/-- C2, counterexample to the claim as stated: the well-formed 13-byte frame
of all zero bytes carries `sample_count = 0` and is accepted by the decoder
(returning device id 0 and an empty sample list) instead of being
rejected. -/
theorem claim_C2_counterexample :
    (List.replicate 13 0).length = header_size
      ∧ parse_binary_packet (List.replicate 13 0) = some (0, []) := by
  decide

/-- C2, witness: a 17-byte packet whose sample-count field is 1 decodes to
its single 4-byte sample word, and the decoded length accounting of
`claim_C2_amended` holds for it. -/
theorem claim_C2_amended_witness :
    parse_binary_packet [0, 0, 0, 0, 0, 0, 0, 0, 0, 0, 0, 1, 0, 9, 9, 9, 9]
        = some (0, [151587081])
      ∧ ((0 : ℕ) = [0, 0, 0, 0, 0, 0, 0, 0, 0, 0, 0, 1, 0, 9, 9, 9, 9].getD 0 0
        ∧ 4 * [151587081].length + header_size
            = [0, 0, 0, 0, 0, 0, 0, 0, 0, 0, 0, 1, 0, 9, 9, 9, 9].length) :=
  ⟨by decide,
    (claim_C2_amended [0, 0, 0, 0, 0, 0, 0, 0, 0, 0, 0, 1, 0, 9, 9, 9, 9]).2
      0 [151587081] (by decide)⟩

/-- C4, confirmed: when both channel buffers hold a block and the shorter
one is nonempty, the synchronizer emits exactly one aligned pair of rows of
length `min(len1, len2)` and clears both channel buffers. -/
theorem claim_C4 (now : ℚ) (s : ServerState) (s1 s2 : List ℚ)
    (h1 : s.buf1 = some s1) (h2 : s.buf2 = some s2)
    (hn : 0 < min s1.length s2.length) :
    ∃ rows, (process_by_sample_index now s).1 = some rows
      ∧ rows.length = min s1.length s2.length
      ∧ (process_by_sample_index now s).2.buf1 = none
      ∧ (process_by_sample_index now s).2.buf2 = none := by
  rw [process_eq now s s1 s2 h1 h2 hn]
  refine ⟨_, rfl, ?_, rfl, rfl⟩
  rw [List.length_zip, List.length_map, List.length_range,
    length_apply_filters, length_reref_min]
  omega

/-- C4, witness: blocks of 100 and 80 samples yield one emitted pair of
length `min 100 80 = 80`, and both buffers end cleared. -/
theorem claim_C4_witness :
    ∃ rows, (process_by_sample_index 0
        ⟨some (List.replicate 100 0), some (List.replicate 80 0), none⟩).1
          = some rows
      ∧ rows.length = min (List.replicate 100 (0 : ℚ)).length
          (List.replicate 80 (0 : ℚ)).length
      ∧ (process_by_sample_index 0
          ⟨some (List.replicate 100 0), some (List.replicate 80 0), none⟩).2.buf1
          = none
      ∧ (process_by_sample_index 0
          ⟨some (List.replicate 100 0), some (List.replicate 80 0), none⟩).2.buf2
          = none :=
  claim_C4 0 _ _ _ rfl rfl (by simp)

/-- C7, confirmed: for equal-length blocks of length `n > 0` the
re-referencer output has length `n` and its `i`-th element is
`front[i] - ref[i]`; it is a pure elementwise function of the two blocks. -/
theorem claim_C7 (s1 s2 : List ℚ) (n : ℕ) (h1 : s1.length = n)
    (h2 : s2.length = n) (hn : 0 < n) :
    (reref n s1 s2).length = n
      ∧ ∀ i, i < n → (reref n s1 s2).getD i 0 = s1.getD i 0 - s2.getD i 0 :=
  ⟨by rw [length_reref]; omega,
    fun i hi => reref_getD n s1 s2 hi (by omega) (by omega)⟩

/-- C7, witness: the pair `([3, 5], [1, 2])` of length 2 re-references to a
list of length 2 whose entry 1 is `5 - 2`. -/
theorem claim_C7_witness :
    (reref 2 [3, 5] [1, 2]).length = 2
      ∧ (reref 2 [3, 5] [1, 2]).getD 1 0
          = ([3, 5] : List ℚ).getD 1 0 - ([1, 2] : List ℚ).getD 1 0 :=
  ⟨(claim_C7 [3, 5] [1, 2] 2 rfl rfl (by norm_num)).1,
    (claim_C7 [3, 5] [1, 2] 2 rfl rfl (by norm_num)).2 1 (by norm_num)⟩

/-- C8, confirmed: an inbound message whose decode fails leaves the session
state (both channel buffers and the timestamp base) exactly as it was;
nothing is sent and nothing is persisted. -/
theorem claim_C8 (F : ℕ → ℚ) (now : ℚ) (s : ServerState) (p : List ℕ)
    (h : parse_binary_packet p = none) :
    websocket_endpoint_step F now s p = (s, [], []) := by
  rw [websocket_endpoint_step]
  by_cases hp : p = []
  · simp [hp]
  · simp [hp, h]

/-- C8, witness: the malformed one-byte packet `[0]` fails to decode and
leaves a session state with a pending front block and a clock base
untouched. -/
theorem claim_C8_witness :
    parse_binary_packet [0] = none
      ∧ websocket_endpoint_step (fun w => (w : ℚ)) 0 ⟨some [1], none, some 5⟩ [0]
          = (⟨some [1], none, some 5⟩, [], []) :=
  ⟨by decide, claim_C8 (fun w => (w : ℚ)) 0 ⟨some [1], none, some 5⟩ [0] (by decide)⟩

/-- C9, counterexample to the claim as stated: when the connection dies
between the `SELECT 1` ping and the batch write (ping succeeds, write
fails), the writer performs its single write attempt, does not reconnect,
does not retry, and drops the batch. -/
theorem claim_C9_counterexample :
    (insert_processed_data ⟨true, false, true⟩ [(0, 1)]).writeAttempts = 1
      ∧ (insert_processed_data ⟨true, false, true⟩ [(0, 1)]).reconnected = false
      ∧ (insert_processed_data ⟨true, false, true⟩ [(0, 1)]).persisted = [] := by
  decide

/-- C9, corrected: the writer pings the connection before each batch and
reconnects once when the ping fails; the batch write itself is attempted
exactly once and never retried — a failed write rolls back, the batch is
dropped, and the stream continues. -/
theorem claim_C9_amended (st : SinkState) (data : List Row) :
    (insert_processed_data st data).writeAttempts = 1
      ∧ (insert_processed_data st data).continues = true
      ∧ ((insert_processed_data st data).reconnected = true ↔ st.pingOk = false)
      ∧ (st.pingOk = true → st.writeOk = false →
          (insert_processed_data st data).persisted = []) := by
  obtain ⟨pg, w, f⟩ := st
  cases pg <;> cases w <;> simp [insert_processed_data, get_cursor]

/-- C9, witness: with a live connection and a failing write the batch
`[(2, 3)]` is attempted once and dropped. -/
theorem claim_C9_amended_witness :
    (insert_processed_data ⟨true, false, false⟩ [(2, 3)]).writeAttempts = 1
      ∧ (insert_processed_data ⟨true, false, false⟩ [(2, 3)]).persisted = [] :=
  ⟨(claim_C9_amended ⟨true, false, false⟩ [(2, 3)]).1,
    (claim_C9_amended ⟨true, false, false⟩ [(2, 3)]).2.2.2 rfl rfl⟩

/-- C5, counterexample to the claim as stated: a block whose decode fails
elicits no control message at all — the session never receives any
`"ERROR:<reason>"` text. -/
theorem claim_C5_counterexample :
    parse_binary_packet [0] = none
      ∧ (websocket_endpoint_step (fun w => (w : ℚ)) 0 initialState [0]).2.1
          = [] := by
  decide

/-- C5, corrected: per inbound message the originating session receives
either no control message (decode failure, incomplete pair, or empty
result) or exactly one message `"OK:<n>"` with `n > 0` the number of rows
persisted for that block; no error message is ever sent. -/
theorem claim_C5_amended (F : ℕ → ℚ) (now : ℚ) (s : ServerState) (p : List ℕ) :
    ((websocket_endpoint_step F now s p).2.1 = []
        ∧ (websocket_endpoint_step F now s p).2.2 = [])
      ∨ ∃ n : ℕ, 0 < n
          ∧ (websocket_endpoint_step F now s p).2.1 = ["OK:" ++ toString n]
          ∧ ((websocket_endpoint_step F now s p).2.2).length = n := by
  rw [websocket_endpoint_step]
  by_cases hp : p = []
  · left
    simp [hp]
  · simp only [if_neg hp]
    match hparse : parse_binary_packet p with
    | none => left; exact ⟨rfl, rfl⟩
    | some (d, ws) =>
      simp only []
      set s1 : ServerState :=
        if d = 1 then { s with buf1 := some (ws.map F) }
        else if d = 2 then { s with buf2 := some (ws.map F) } else s with hs1
      by_cases hb : (s1.buf1.isSome && s1.buf2.isSome) = true
      · simp only [hb, if_true]
        match hproc : process_by_sample_index now s1 with
        | (some results, s2) =>
          by_cases hres : results = []
          · left
            simp [hres]
          · right
            refine ⟨results.length, List.length_pos.mpr hres, ?_, ?_⟩
            · simp [hres]
            · simp [hres]
        | (none, s2) => left; exact ⟨rfl, rfl⟩
      · simp only [hb, if_false]
        left
        exact ⟨rfl, rfl⟩

/-- C6, confirmed: the cascade is exactly the three fixed-coefficient
second-order stages applied in the order high-pass, notch, low-pass (the
same module-level coefficient arrays for every block), and each stage's
output obeys the biquad recurrence
`y[n] = b0*x[n] + b1*x[n-1] + b2*x[n-2] - a1*y[n-1] - a2*y[n-2]` at every
index with two in-block predecessors. -/
theorem claim_C6 :
    (∀ x : List ℚ, apply_filters x
        = iir_filter_2nd_order B_LP A_LP
            (iir_filter_2nd_order B_NOTCH A_NOTCH
              (iir_filter_2nd_order B_HP A_HP x)))
      ∧ ∀ (b a : Coeffs) (x : List ℚ) (n : ℕ), 2 ≤ n → n < x.length →
          (iir_filter_2nd_order b a x).getD n 0
            = b.1 * x.getD n 0 + b.2.1 * x.getD (n - 1) 0
              + b.2.2 * x.getD (n - 2) 0
              - a.2.1 * (iir_filter_2nd_order b a x).getD (n - 1) 0
              - a.2.2 * (iir_filter_2nd_order b a x).getD (n - 2) 0 := by
  constructor
  · intro x
    by_cases hx : x = []
    · subst hx
      rfl
    · simp [apply_filters, hx]
  · exact fun b a x n h2 hn => iir_recurrence b a x h2 hn

/-- C6, witness: the high-pass stage satisfies the recurrence at index 2 of
the block `[1, 0, 0]`. -/
theorem claim_C6_witness :
    (2 ≤ 2 ∧ 2 < ([1, 0, 0] : List ℚ).length)
      ∧ (iir_filter_2nd_order B_HP A_HP [1, 0, 0]).getD 2 0
          = B_HP.1 * ([1, 0, 0] : List ℚ).getD 2 0
            + B_HP.2.1 * ([1, 0, 0] : List ℚ).getD 1 0
            + B_HP.2.2 * ([1, 0, 0] : List ℚ).getD 0 0
            - A_HP.2.1 * (iir_filter_2nd_order B_HP A_HP [1, 0, 0]).getD 1 0
            - A_HP.2.2 * (iir_filter_2nd_order B_HP A_HP [1, 0, 0]).getD 0 0 :=
  ⟨⟨by norm_num, by norm_num⟩,
    claim_C6.2 B_HP A_HP [1, 0, 0] 2 (by norm_num) (by norm_num)⟩

/-- Closed form of feeding one valid block pair: the same pipeline run as
`process_eq`, after both buffers are stored. -/
theorem feedPair_eq (now : ℚ) (s : ServerState) (p : List ℚ × List ℚ)
    (hn : 0 < min p.1.length p.2.length) :
    feedPair now s p =
      (((List.range (min p.1.length p.2.length)).map
          (fun i : ℕ => s.start_time.getD now + (i : ℚ) * dt_ms)).zip
        (apply_filters (reref (min p.1.length p.2.length) p.1 p.2)),
       { buf1 := none, buf2 := none,
         start_time := some (s.start_time.getD now
           + (min p.1.length p.2.length) * dt_ms) }) := by
  rw [feedPair,
    process_eq now { s with buf1 := some p.1, buf2 := some p.2 } p.1 p.2
      rfl rfl hn]

/-- Values persisted for one valid block pair: exactly the cascade applied
to that pair's re-referenced samples, whatever the session history. -/
theorem feedPair_values (now : ℚ) (s : ServerState) (p : List ℚ × List ℚ)
    (hn : 0 < min p.1.length p.2.length) :
    (feedPair now s p).1.map Prod.snd
      = apply_filters (reref (min p.1.length p.2.length) p.1 p.2) := by
  rw [feedPair_eq now s p hn]
  apply List.map_snd_zip
  rw [List.length_map, List.length_range, length_apply_filters,
    length_reref_min]

/-- C1, corrected: the per-stage delay state does not persist across block
boundaries — every call of `iir_filter_2nd_order` restarts from an all-zero
state, so processing two consecutive block pairs persists the concatenation
of the two independently filtered blocks, for any session history and any
clock values. -/
theorem claim_C1_amended (now1 now2 : ℚ) (s0 : ServerState)
    (f1 r1 f2 r2 : List ℚ) (h1 : 0 < min f1.length r1.length)
    (h2 : 0 < min f2.length r2.length) :
    (feedPair now1 s0 (f1, r1)).1.map Prod.snd
        ++ (feedPair now2 (feedPair now1 s0 (f1, r1)).2 (f2, r2)).1.map Prod.snd
      = apply_filters (reref (min f1.length r1.length) f1 r1)
        ++ apply_filters (reref (min f2.length r2.length) f2 r2) := by
  rw [feedPair_values now1 s0 (f1, r1) h1,
    feedPair_values now2 (feedPair now1 s0 (f1, r1)).2 (f2, r2) h2]

/-- C1, counterexample to the claim as stated: the session fed the
single-sample pair `([1], [0])` twice persists values that differ at index 1
from filtering the concatenated two-sample signal `[1, 1]` by far more than
any floating-point tolerance (the gap exceeds 1/2). -/
theorem claim_C1_counterexample :
    ((runPairs 0 initialState [([1], [0]), ([1], [0])]).map Prod.snd).getD 1 0
        + 1 / 2
      < (apply_filters ([1] ++ [1])).getD 1 0 := by
  norm_num [runPairs, feedPair, process_by_sample_index, initialState, reref,
    apply_filters, iir_filter_2nd_order, iirAux, iirStep, dt_ms, FS,
    B_HP, A_HP, B_NOTCH, A_NOTCH, B_LP, A_LP, List.range_succ]
  rw [if_neg (show ¬([1, 1] : List ℚ) = [] by simp)]
  norm_num

/-- C1, witness: the amended statement at the concrete session that
processes the pair `([1], [0])` twice from a fresh state. -/
theorem claim_C1_amended_witness :
    (0 < min ([1] : List ℚ).length ([0] : List ℚ).length)
      ∧ (feedPair 0 initialState ([1], [0])).1.map Prod.snd
            ++ (feedPair 0 (feedPair 0 initialState ([1], [0])).2
                ([1], [0])).1.map Prod.snd
          = apply_filters (reref (min ([1] : List ℚ).length
                ([0] : List ℚ).length) [1] [0])
            ++ apply_filters (reref (min ([1] : List ℚ).length
                ([0] : List ℚ).length) [1] [0]) :=
  ⟨by norm_num,
    claim_C1_amended 0 0 initialState [1] [0] [1] [0] (by norm_num)
      (by norm_num)⟩

/-- C3, counterexample to the claim as stated: the pair of maximal-float32
blocks `[(2^24 - 1) * 2^104]` and `[-(2^24 - 1) * 2^104]` re-references to a
value that overflows float32 (the real pipeline emits an infinity there),
yet the pipeline persists the full one-row block instead of discarding
it. -/
theorem claim_C3_counterexample :
    blockHasNonFinite [16777215 * 2 ^ 104] [-(16777215 * 2 ^ 104)] 1
      ∧ (((process_by_sample_index 0
          ⟨some [16777215 * 2 ^ 104], some [-(16777215 * 2 ^ 104)],
            some 0⟩).1.getD []).length = 1) := by
  constructor
  · left
    refine ⟨16777215 * 2 ^ 104 - -(16777215 * 2 ^ 104), ?_, ?_⟩
    · show _ ∈ reref 1 _ _
      rw [show reref 1 [(16777215 * 2 ^ 104 : ℚ)] [-(16777215 * 2 ^ 104)]
          = [16777215 * 2 ^ 104 - -(16777215 * 2 ^ 104)] from rfl]
      exact List.mem_singleton.mpr rfl
    · show (2 : ℚ) ^ 128 ≤ |16777215 * 2 ^ 104 - -(16777215 * 2 ^ 104)|
      rw [abs_of_pos (by norm_num)]
      norm_num
  · rw [process_eq 0
      ⟨some [16777215 * 2 ^ 104], some [-(16777215 * 2 ^ 104)], some 0⟩
      [16777215 * 2 ^ 104] [-(16777215 * 2 ^ 104)] rfl rfl (by norm_num)]
    simp only [Option.getD_some]
    rw [List.length_zip, List.length_map, List.length_range,
      length_apply_filters, length_reref_min]
    simp

/-- C3, corrected: no finite-check exists anywhere between the filter
cascade and persistence — whenever a pair is processed, every one of its
`n` filtered values (overflowing float32 or not) is handed to the
persistence layer; non-finite results are emitted, never discarded. -/
theorem claim_C3_amended (now : ℚ) (s : ServerState) (s1 s2 : List ℚ)
    (h1 : s.buf1 = some s1) (h2 : s.buf2 = some s2)
    (hn : 0 < min s1.length s2.length) :
    ((process_by_sample_index now s).1.getD []).map Prod.snd
      = apply_filters (reref (min s1.length s2.length) s1 s2) := by
  rw [process_eq now s s1 s2 h1 h2 hn]
  simp only [Option.getD_some]
  apply List.map_snd_zip
  rw [List.length_map, List.length_range, length_apply_filters,
    length_reref_min]

/-- C3, witness: the amended statement at the overflowing one-sample pair —
the overflowing filtered value is itself what gets persisted. -/
theorem claim_C3_amended_witness :
    ((process_by_sample_index 0
        ⟨some [16777215 * 2 ^ 104], some [-(16777215 * 2 ^ 104)],
          some 0⟩).1.getD []).map Prod.snd
      = apply_filters (reref
          (min ([16777215 * 2 ^ 104] : List ℚ).length
            ([-(16777215 * 2 ^ 104)] : List ℚ).length)
          [16777215 * 2 ^ 104] [-(16777215 * 2 ^ 104)]) :=
  claim_C3_amended 0
    ⟨some [16777215 * 2 ^ 104], some [-(16777215 * 2 ^ 104)], some 0⟩
    [16777215 * 2 ^ 104] [-(16777215 * 2 ^ 104)] rfl rfl (by norm_num)

/-- Decoding depends only on the packet length, the device-id byte, the two
sample-count bytes and the payload after the header. -/
theorem parse_reads (p q : List ℕ) (hlen : p.length = q.length)
    (h0 : p.getD 0 0 = q.getD 0 0) (h11 : p.getD 11 0 = q.getD 11 0)
    (h12 : p.getD 12 0 = q.getD 12 0)
    (hdrop : p.drop header_size = q.drop header_size) :
    parse_binary_packet p = parse_binary_packet q := by
  simp only [parse_binary_packet, hlen, h0, h11, h12, hdrop]

theorem getD_append_eight (ts rest : List ℕ) (h : ts.length = 8) {i : ℕ}
    (hi : 8 ≤ i) : (ts ++ rest).getD i 0 = rest.getD (i - 8) 0 := by
  rw [List.getD_eq_getElem?_getD, List.getElem?_append,
    if_neg (by rw [h]; omega), h, ← List.getD_eq_getElem?_getD]

theorem range_map_getD (f : ℕ → ℚ) {n i : ℕ} (hi : i < n) :
    ((List.range n).map f).getD i 0 = f i := by
  rw [List.getD_eq_getElem?_getD, List.getElem?_map, List.getElem?_range hi]
  rfl

theorem dt_ms_pos : (0 : ℚ) < dt_ms := by norm_num [dt_ms, FS]

/-- Timestamps emitted by a run of the session are strictly increasing and
bounded below by the clock base the run starts from (or by `now` when no
base exists yet). -/
theorem runPairs_timestamps (now : ℚ) :
    ∀ (ps : List (List ℚ × List ℚ)) (s : ServerState),
      (∀ p ∈ ps, 0 < min p.1.length p.2.length) →
      ((runPairs now s ps).map Prod.fst).Pairwise (· < ·)
        ∧ ∀ t ∈ (runPairs now s ps).map Prod.fst, s.start_time.getD now ≤ t
  | [], _, _ => by simp [runPairs]
  | p :: ps, s, hv => by
    have hp := hv p (List.mem_cons_self p ps)
    have ih := runPairs_timestamps now ps
      ⟨none, none, some (s.start_time.getD now
        + (min p.1.length p.2.length : ℕ) * dt_ms)⟩
      (fun q hq => hv q (List.mem_cons_of_mem p hq))
    rw [runPairs, List.map_append, feedPair_eq now s p hp]
    have hfst : (((List.range (min p.1.length p.2.length)).map
        (fun i : ℕ => s.start_time.getD now + (i : ℚ) * dt_ms)).zip
          (apply_filters (reref (min p.1.length p.2.length) p.1 p.2))).map
            Prod.fst
        = (List.range (min p.1.length p.2.length)).map
            (fun i : ℕ => s.start_time.getD now + (i : ℚ) * dt_ms) := by
      apply List.map_fst_zip
      rw [List.length_map, List.length_range, length_apply_filters,
        length_reref_min]
    have hbounds : ∀ t ∈ (List.range (min p.1.length p.2.length)).map
        (fun i : ℕ => s.start_time.getD now + (i : ℚ) * dt_ms),
        s.start_time.getD now ≤ t
          ∧ t < s.start_time.getD now
              + (min p.1.length p.2.length : ℕ) * dt_ms := by
      intro t ht
      rw [List.mem_map] at ht
      obtain ⟨i, hi, rfl⟩ := ht
      rw [List.mem_range] at hi
      refine ⟨le_add_of_nonneg_right
        (mul_nonneg (Nat.cast_nonneg i) dt_ms_pos.le), ?_⟩
      exact add_lt_add_left
        (mul_lt_mul_of_pos_right (Nat.cast_lt.mpr hi) dt_ms_pos) _
    have hihbase : ∀ t ∈ (runPairs now
        ⟨none, none, some (s.start_time.getD now
          + (min p.1.length p.2.length : ℕ) * dt_ms)⟩ ps).map Prod.fst,
        s.start_time.getD now + (min p.1.length p.2.length : ℕ) * dt_ms
          ≤ t := by
      intro t ht
      exact ih.2 t ht
    constructor
    · rw [hfst, List.pairwise_append]
      refine ⟨?_, ih.1, ?_⟩
      · exact List.Pairwise.map _ (fun a b hab => add_lt_add_left
          (mul_lt_mul_of_pos_right (Nat.cast_lt.mpr hab) dt_ms_pos) _)
          (List.pairwise_lt_range _)
      · intro a ha b hb
        exact lt_of_lt_of_le (hbounds a ha).2 (hihbase b hb)
    · intro t ht
      rw [hfst, List.mem_append] at ht
      rcases ht with ht | ht
      · exact (hbounds t ht).1
      · exact le_trans (le_add_of_nonneg_right
          (mul_nonneg (Nat.cast_nonneg _) dt_ms_pos.le)) (hihbase t ht)

/-- C10, confirmed: timestamps are synthesized by the server.  The decoder
ignores the wire `timestamp_start` bytes (positions 1-8) entirely; for a
processed block the emitted timestamps are `t0 + i * dt_ms` where `t0` is
the stored clock base, defaulting to the server's current wall-clock `now`
for the first block; consecutive samples are spaced exactly
`dt_ms = 1000/250` ms; the next block's base is set one period after the
last emitted timestamp, above every timestamp of the block; and over a
whole session every emitted timestamp sequence is strictly increasing. -/
theorem claim_C10 :
    (∀ (d : ℕ) (ts1 ts2 rest : List ℕ), ts1.length = 8 → ts2.length = 8 →
        parse_binary_packet (d :: (ts1 ++ rest))
          = parse_binary_packet (d :: (ts2 ++ rest)))
    ∧ (∀ (now : ℚ) (s : ServerState) (s1 s2 : List ℚ),
        s.buf1 = some s1 → s.buf2 = some s2 →
        0 < min s1.length s2.length →
          (((process_by_sample_index now s).1.getD []).map Prod.fst
              = (List.range (min s1.length s2.length)).map
                  (fun i : ℕ => s.start_time.getD now + (i : ℚ) * dt_ms))
          ∧ (∀ i, i + 1 < min s1.length s2.length →
              (((process_by_sample_index now s).1.getD []).map
                  Prod.fst).getD (i + 1) 0
                = (((process_by_sample_index now s).1.getD []).map
                    Prod.fst).getD i 0 + dt_ms)
          ∧ (process_by_sample_index now s).2.start_time
              = some (s.start_time.getD now
                  + (min s1.length s2.length : ℕ) * dt_ms)
          ∧ ∀ t ∈ ((process_by_sample_index now s).1.getD []).map Prod.fst,
              t < s.start_time.getD now
                + (min s1.length s2.length : ℕ) * dt_ms)
    ∧ dt_ms = 1000 / 250
    ∧ ∀ (now : ℚ) (ps : List (List ℚ × List ℚ)),
        (∀ p ∈ ps, 0 < min p.1.length p.2.length) →
        ((runPairs now initialState ps).map Prod.fst).Pairwise (· < ·) := by
  refine ⟨?_, ?_, by norm_num [dt_ms, FS], ?_⟩
  · intro d ts1 ts2 rest h1 h2
    apply parse_reads
    · simp [h1, h2]
    · rfl
    · rw [show (11 : ℕ) = 10 + 1 from rfl, List.getD_cons_succ,
        List.getD_cons_succ, getD_append_eight ts1 rest h1 (by omega),
        getD_append_eight ts2 rest h2 (by omega)]
    · rw [show (12 : ℕ) = 11 + 1 from rfl, List.getD_cons_succ,
        List.getD_cons_succ, getD_append_eight ts1 rest h1 (by omega),
        getD_append_eight ts2 rest h2 (by omega)]
    · show (d :: (ts1 ++ rest)).drop (12 + 1) = (d :: (ts2 ++ rest)).drop (12 + 1)
      rw [List.drop_succ_cons, List.drop_succ_cons,
        show (12 : ℕ) = ts1.length + 4 by omega, List.drop_append,
        show (ts1.length + 4 : ℕ) = ts2.length + 4 by omega, List.drop_append]
  · intro now s s1 s2 h1 h2 hn
    have hfst : ((process_by_sample_index now s).1.getD []).map Prod.fst
        = (List.range (min s1.length s2.length)).map
            (fun i : ℕ => s.start_time.getD now + (i : ℚ) * dt_ms) := by
      rw [process_eq now s s1 s2 h1 h2 hn]
      simp only [Option.getD_some]
      apply List.map_fst_zip
      rw [List.length_map, List.length_range, length_apply_filters,
        length_reref_min]
    refine ⟨hfst, ?_, ?_, ?_⟩
    · intro i hi
      rw [hfst, range_map_getD _ hi, range_map_getD _ (by omega)]
      push_cast
      ring
    · rw [process_eq now s s1 s2 h1 h2 hn]
    · intro t ht
      rw [hfst, List.mem_map] at ht
      obtain ⟨i, hi, rfl⟩ := ht
      rw [List.mem_range] at hi
      exact add_lt_add_left
        (mul_lt_mul_of_pos_right (Nat.cast_lt.mpr hi) dt_ms_pos) _
  · intro now ps hv
    exact (runPairs_timestamps now ps initialState hv).1

/-- C10, witness: the timestamp bytes of two otherwise identical packets do
not change the decode result, and a fresh session fed the two valid pairs
`([1], [2])` and `([3, 4], [5, 6])` emits strictly increasing
timestamps. -/
theorem claim_C10_witness :
    ((List.replicate 8 3).length = 8 ∧ (List.replicate 8 4).length = 8
      ∧ parse_binary_packet (7 :: (List.replicate 8 3 ++ List.replicate 4 0))
          = parse_binary_packet (7 :: (List.replicate 8 4 ++ List.replicate 4 0)))
    ∧ ((runPairs 0 initialState
        [([1], [2]), ([3, 4], [5, 6])]).map Prod.fst).Pairwise (· < ·) :=
  ⟨⟨by decide, by decide,
      claim_C10.1 7 (List.replicate 8 3) (List.replicate 8 4)
        (List.replicate 4 0) (by decide) (by decide)⟩,
    claim_C10.2.2.2 0 [([1], [2]), ([3, 4], [5, 6])] (by decide)⟩

end Server
